import Mathlib

/-!
Shallow embedding of the condition-set engine from `src/source/ConditionSet.cpp`
(endless-sky). The engine parses a textual mini-language of named integer
conditions into a tree of expressions and nested AND/OR groups, and evaluates
the tree against a name-to-integer mapping either as a boolean test (`Test`)
or as an in-place mutation (`Apply`).

C++ `std::map<string,int>` is embedded as an association list `CondMap` with
`mapFindVal` (the non-inserting `find`), `mapIndexRead` (`operator[]`, which
materialises an absent key with value 0) and `mapSet` (assignment through the
reference returned by `operator[]`). The external random source
(`Random::Int(100)`) is embedded as a stream of natural numbers, each draw
reduced modulo 100 so every drawn value lies in [0, 100).
-/

namespace ConditionSetModel

/-- The caller-supplied mapping from condition names to integer values,
embedded as an association list (first binding of a key wins). -/
abbrev CondMap := List (String × Int)

/-- `std::map::find` followed by a value read: the value bound to `k`,
or `none` if the key is absent.  Never inserts. -/
def mapFindVal : CondMap → String → Option Int
  | [], _ => none
  | (k', v) :: rest, k => if k' = k then some v else mapFindVal rest k

/-- Whether the mapping holds a binding for `k`. -/
def mapContains (m : CondMap) (k : String) : Bool :=
  (mapFindVal m k).isSome

/-- `std::map::operator[]` read: the current value bound to `k`, together
with the mapping after the access — if `k` is absent it is inserted with
the value-initialised default 0. -/
def mapIndexRead (m : CondMap) (k : String) : Int × CondMap :=
  match mapFindVal m k with
  | some v => (v, m)
  | none => (0, m ++ [(k, 0)])

/-- Assignment `m[k] = v` to a key that the caller has already materialised:
replaces the first binding of `k`, or appends one if none exists. -/
def mapSet : CondMap → String → Int → CondMap
  | [], k, v => [(k, v)]
  | (k', v') :: rest, k, v =>
    if k' = k then (k, v) :: rest else (k', v') :: mapSet rest k v

/-- The operator table `Op` from `ConditionSet.cpp`: maps an operator token to
its pure binary function on integers, or `none` ("not found", the C++
`nullptr`) for an unrecognized token.  Test operators return 0 or 1; apply
operators return the condition's new value. -/
def Op (op : String) : Option (Int → Int → Int) :=
  if op = "==" then some (fun a b => if a = b then 1 else 0)
  else if op = "!=" then some (fun a b => if a ≠ b then 1 else 0)
  else if op = "<" then some (fun a b => if a < b then 1 else 0)
  else if op = ">" then some (fun a b => if a > b then 1 else 0)
  else if op = "<=" then some (fun a b => if a ≤ b then 1 else 0)
  else if op = ">=" then some (fun a b => if a ≥ b then 1 else 0)
  else if op = "=" then some (fun _ b => b)
  else if op = "+=" then some (fun a b => a + b)
  else if op = "-=" then some (fun a b => a - b)
  else if op = "<?=" then some (fun a b => min a b)
  else if op = ">?=" then some (fun a b => max a b)
  else none

/-- The bound function for an operator token applied to a pair of integers;
`none` when the token is unrecognized. -/
def opApp (op : String) (a b : Int) : Option Int :=
  (Op op).map fun f => f a b

/-- One leaf expression: a condition name, the operator token, and the
integer operand.  The C++ struct also caches `fun = Op(op)`; here the bound
function is recovered by `Expression.fn`. -/
structure Expression where
  name : String
  op : String
  value : Int
  deriving DecidableEq, Repr

/-- The bound operator function cached in the C++ `Expression` constructor
(`fun(Op(op))`).  Expressions appended by `Add` always carry a recognized
operator, so the fallback is never exercised on constructed trees. -/
def Expression.fn (e : Expression) : Int → Int → Int :=
  (Op e.op).getD fun _ _ => 0

/-- A node of the condition tree: the AND/OR combinator flag, the ordered
leaf expressions, and the ordered nested child sets. -/
structure ConditionSet where
  isOr : Bool := false
  expressions : List Expression := []
  children : List ConditionSet := []

/-- `ConditionSet::IsEmpty`: no expressions and no children. -/
def ConditionSet.IsEmpty (s : ConditionSet) : Bool :=
  s.expressions.isEmpty && s.children.isEmpty

/-- The value an expression's name resolves to during `Test`, threading the
mapping (unchanged: `Test` uses the non-inserting `find`) and the random
stream: `"random"` draws a fresh integer in [0, 100) and consumes one stream
element; any other name reads `mapping[name]` defaulting to 0. -/
def testValue (name : String) (m : CondMap) (rng : List Nat) :
    Int × CondMap × List Nat :=
  if name = "random" then (((rng.headD 0 % 100 : Nat) : Int), m, rng.tail)
  else ((mapFindVal m name).getD 0, m, rng)

/-- One expression's boolean result in `Test`: resolve the current value,
apply the bound function, convert the resulting `int` to `bool` the C++ way
(nonzero is true). -/
def testExpr (e : Expression) (m : CondMap) (rng : List Nat) :
    Bool × CondMap × List Nat :=
  match testValue e.name m rng with
  | (v, m', rng') => (e.fn v e.value ≠ 0, m', rng')

/-- The expression loop of `ConditionSet::Test`: scan in declaration order,
returning `some result` as soon as an expression's result equals `isOr`
(the short-circuit), or `none` when the scan runs off the end. -/
def testExprList (es : List Expression) (isOr : Bool) (m : CondMap)
    (rng : List Nat) : Option Bool × CondMap × List Nat :=
  match es with
  | [] => (none, m, rng)
  | e :: rest =>
    match testExpr e m rng with
    | (b, m', rng') =>
      if b = isOr then (some b, m', rng')
      else testExprList rest isOr m' rng'

mutual

/-- `ConditionSet::Test`: expressions in order, then children in order, each
subject to the short-circuit rule; `!isOr` if nothing short-circuits.  The
mapping is threaded to make its preservation provable; the random stream
records the draws consumed. -/
def ConditionSet.Test (s : ConditionSet) (m : CondMap) (rng : List Nat) :
    Bool × CondMap × List Nat :=
  match s with
  | ⟨isOr, expressions, children⟩ =>
    match testExprList expressions isOr m rng with
    | (some r, m', rng') => (r, m', rng')
    | (none, m', rng') =>
      match testChildList children isOr m' rng' with
      | (some r, m'', rng'') => (r, m'', rng'')
      | (none, m'', rng'') => (!isOr, m'', rng'')
termination_by sizeOf s

/-- The child loop of `ConditionSet::Test`: recursively test each child in
order, short-circuiting when a child's result equals `isOr`. -/
def testChildList (cs : List ConditionSet) (isOr : Bool) (m : CondMap)
    (rng : List Nat) : Option Bool × CondMap × List Nat :=
  match cs with
  | [] => (none, m, rng)
  | c :: rest =>
    match c.Test m rng with
    | (b, m', rng') =>
      if b = isOr then (some b, m', rng')
      else testChildList rest isOr m' rng'
termination_by sizeOf cs

end

/-- One expression step of `ConditionSet::Apply`:
`int &c = conditions[name]; c = fun(c, value);` — read through `operator[]`
(materialising the key at 0 if absent) and write back the function's
result. -/
def applyExpr (e : Expression) (m : CondMap) : CondMap :=
  match mapIndexRead m e.name with
  | (c, m') => mapSet m' e.name (e.fn c e.value)

/-- The expression loop of `ConditionSet::Apply`. -/
def applyExprList (es : List Expression) (m : CondMap) : CondMap :=
  match es with
  | [] => m
  | e :: rest => applyExprList rest (applyExpr e m)

mutual

/-- `ConditionSet::Apply`: fold every expression's mutation over the mapping
in declaration order, then recurse into every child unconditionally
(the combinator flag plays no role in `Apply`). -/
def ConditionSet.Apply (s : ConditionSet) (m : CondMap) : CondMap :=
  match s with
  | ⟨_, expressions, children⟩ =>
    applyChildList children (applyExprList expressions m)
termination_by sizeOf s

/-- The child loop of `ConditionSet::Apply`. -/
def applyChildList (cs : List ConditionSet) (m : CondMap) : CondMap :=
  match cs with
  | [] => m
  | c :: rest => applyChildList rest (c.Apply m)
termination_by sizeOf cs

end

/-- Modelled from the spec: the external structured reader's node type
(`DataNode`), which is out of scope for the core.  A node exposes its ordered
token texts, the numeric value of each token (`none` standing for a
non-finite / non-numeric value, the C++ `NaN`), and its child nodes. -/
structure DataNode where
  tokens : List String := []
  nums : List (Option Int) := []
  children : List DataNode := []

/-- Modelled from the spec: `DataNode::Size()`, the number of tokens. -/
def DataNode.Size (n : DataNode) : Nat := n.tokens.length

/-- Modelled from the spec: `DataNode::Token(i)`, the text of token `i`. -/
def DataNode.Token (n : DataNode) (i : Nat) : String := n.tokens.getD i ""

/-- Modelled from the spec: `DataNode::Value(i)`, the numeric value of token
`i`; `none` when it is not a finite number. -/
def DataNode.Value (n : DataNode) (i : Nat) : Option Int := n.nums.getD i none

/-- The unary-form `ConditionSet::Add(firstToken, secondToken)`: desugars a
two-token shorthand line to its canonical Expression, keyword rules on the
first token before suffix rules on the second; `none` is the `return false`
(unrecognized) case. -/
def addUnary (firstToken secondToken : String) : Option Expression :=
  if firstToken = "not" then some ⟨secondToken, "==", 0⟩
  else if firstToken = "has" then some ⟨secondToken, "!=", 0⟩
  else if firstToken = "set" then some ⟨secondToken, "=", 1⟩
  else if firstToken = "clear" then some ⟨secondToken, "=", 0⟩
  else if secondToken = "++" then some ⟨firstToken, "+=", 1⟩
  else if secondToken = "--" then some ⟨firstToken, "-=", 1⟩
  else none

/-- The binary-form `ConditionSet::Add(name, op, value)`: fails when the
operator token is not in the table or the value is not a finite number,
otherwise yields the Expression. -/
def addBinary (name op : String) (value : Option Int) : Option Expression :=
  match Op op, value with
  | some _, some v => some ⟨name, op, v⟩
  | _, _ => none

mutual

/-- `ConditionSet::Add(node)`: dispatch on the line's token count — a
two-token line tries the unary form, a three-token line the binary form (a
failed line is reported and discarded, leaving the set unchanged), a lone
`"never"` appends the sentinel `("", "!=", 0)`, a lone `"and"`/`"or"` appends
a nested set loaded from the same node, and anything else is discarded. -/
def ConditionSet.Add (s : ConditionSet) (node : DataNode) : ConditionSet :=
  if node.Size = 2 then
    match addUnary (node.Token 0) (node.Token 1) with
    | some e => { s with expressions := s.expressions ++ [e] }
    | none => s
  else if node.Size = 3 then
    match addBinary (node.Token 0) (node.Token 1) (node.Value 2) with
    | some e => { s with expressions := s.expressions ++ [e] }
    | none => s
  else if node.Size = 1 ∧ node.Token 0 = "never" then
    { s with expressions := s.expressions ++ [⟨"", "!=", 0⟩] }
  else if node.Size = 1 ∧ (node.Token 0 = "and" ∨ node.Token 0 = "or") then
    { s with children := s.children ++ [ConditionSet.Load node] }
  else s
termination_by (sizeOf node, 1)

/-- The loop of `ConditionSet::Load`: `Add` each line in order. -/
def addList (s : ConditionSet) (ns : List DataNode) : ConditionSet :=
  match ns with
  | [] => s
  | n :: rest => addList (s.Add n) rest
termination_by (sizeOf ns, 2)

/-- `ConditionSet::Load(node)`: `isOr` is true exactly when the node's first
token is `"or"`; then every child line is `Add`ed in order. -/
def ConditionSet.Load (node : DataNode) : ConditionSet :=
  match node with
  | ⟨tokens, _, children⟩ =>
    addList ⟨tokens.getD 0 "" == "or", [], []⟩ children
termination_by (sizeOf node, 0)

end

/-- Modelled from the spec: one output action of the external `DataWriter` —
either a record of tokens (`Write(name, op, value)` / `Write(tok)`) or the
scoped begin/end of a nested block. -/
inductive WriteItem where
  | record3 (name op : String) (value : Int)
  | record1 (token : String)
  | beginChild
  | endChild
  deriving DecidableEq, Repr

mutual

/-- `ConditionSet::Save`: one `(name, op, value)` record per expression in
declaration order, then for each child an `"and"`/`"or"` record (per the
child's `isOr`) followed by a scoped block of the child's recursive save. -/
def ConditionSet.Save (s : ConditionSet) : List WriteItem :=
  match s with
  | ⟨_, expressions, children⟩ =>
    expressions.map (fun e => .record3 e.name e.op e.value)
      ++ saveChildList children
termination_by sizeOf s

/-- The child loop of `ConditionSet::Save`. -/
def saveChildList (cs : List ConditionSet) : List WriteItem :=
  match cs with
  | [] => []
  | c :: rest =>
    .record1 (if c.isOr then "or" else "and") :: .beginChild :: (c.Save
      ++ .endChild :: saveChildList rest)
termination_by sizeOf cs

end

/-- Modelled from the spec: the external reader turning a writer's output
back into structured nodes.  A record becomes a node with those tokens (an
integer's text token re-reads as the same number); `beginChild` opens a block
whose nodes become children of the previously written line; `endChild`
closes it.  The stack holds the suspended sibling lists, most recent first,
each in reverse order. -/
def readGo : List WriteItem → List DataNode → List (List DataNode) → List DataNode
  | [], acc, _ => acc.reverse
  | .record3 name op v :: rest, acc, stack =>
    readGo rest (⟨[name, op, toString v], [none, none, some v], []⟩ :: acc) stack
  | .record1 tok :: rest, acc, stack =>
    readGo rest (⟨[tok], [none], []⟩ :: acc) stack
  | .beginChild :: rest, acc, stack =>
    readGo rest [] (acc :: stack)
  | .endChild :: rest, acc, stack =>
    match stack with
    | [] => readGo rest acc []
    | parentAcc :: stack' =>
      match parentAcc with
      | [] => readGo rest acc.reverse stack'
      | p :: ps =>
        readGo rest ({ p with children := p.children ++ acc.reverse } :: ps) stack'

/-- Modelled from the spec: read a whole writer output as a sibling list. -/
def readItems (items : List WriteItem) : List DataNode :=
  readGo items [] []

/-- Re-parse a saved tree: the saved lines become the children of a fresh
line whose sole token restates the tree's own combinator (which `Save`
leaves to its caller), and that node is `Load`ed. -/
def reload (s : ConditionSet) : ConditionSet :=
  ConditionSet.Load ⟨[if s.isOr then "or" else "and"], [none], readItems s.Save⟩

mutual

/-- Every expression in the tree carries an operator that the table
recognizes — true of every tree built through `Add`. -/
def ConditionSet.ValidOps (s : ConditionSet) : Bool :=
  match s with
  | ⟨_, expressions, children⟩ =>
    expressions.all (fun e => (Op e.op).isSome) && childListValidOps children
termination_by sizeOf s

/-- `ValidOps` over a child list. -/
def childListValidOps (cs : List ConditionSet) : Bool :=
  match cs with
  | [] => true
  | c :: rest => c.ValidOps && childListValidOps rest
termination_by sizeOf cs

end

mutual

/-- All condition names mentioned by the tree's expressions, nested children
included. -/
def ConditionSet.names (s : ConditionSet) : List String :=
  match s with
  | ⟨_, expressions, children⟩ =>
    expressions.map Expression.name ++ childListNames children
termination_by sizeOf s

/-- `names` over a child list. -/
def childListNames (cs : List ConditionSet) : List String :=
  match cs with
  | [] => []
  | c :: rest => c.names ++ childListNames rest
termination_by sizeOf cs

end

/-- One canonical three-token line per expression, as the reader recovers it
from a `record3` in `Save` output. -/
def nodeOfExpr (e : Expression) : DataNode :=
  ⟨[e.name, e.op, toString e.value], [none, none, some e.value], []⟩

mutual

/-- The sibling node list the reader recovers from a tree's `Save` output:
one three-token line per expression, then one `"and"`/`"or"` line per child
whose own children are recovered recursively. -/
def nodesOfSet (s : ConditionSet) : List DataNode :=
  match s with
  | ⟨_, expressions, children⟩ =>
    expressions.map nodeOfExpr ++ childNodeList children
termination_by sizeOf s

/-- `nodesOfSet` over a child list. -/
def childNodeList (cs : List ConditionSet) : List DataNode :=
  match cs with
  | [] => []
  | c :: rest =>
    ⟨[if c.isOr then "or" else "and"], [none], nodesOfSet c⟩
      :: childNodeList rest
termination_by sizeOf cs

end

/-- The spec's `Apply` example block: `set "gold"` then `"gold" "+=" 5`. -/
def goldNode : DataNode :=
  ⟨["and"], [none],
    [⟨["set", "gold"], [none, none], []⟩,
     ⟨["gold", "+=", "5"], [none, none, some 5], []⟩]⟩

/-- A block with one malformed line (unrecognized operator token `"@@"`)
between two valid lines. -/
def malNode : DataNode :=
  ⟨["and"], [none],
    [⟨["a", "==", "1"], [none, none, some 1], []⟩,
     ⟨["bogus", "@@", "x"], [none, none, none], []⟩,
     ⟨["b", "<", "2"], [none, none, some 2], []⟩]⟩

/-! ### Basic lemmas about the mapping embedding -/

theorem mapFindVal_mapSet_self (m : CondMap) (k : String) (v : Int) :
    mapFindVal (mapSet m k v) k = some v := by
  induction m with
  | nil => simp [mapSet, mapFindVal]
  | cons p rest ih =>
    obtain ⟨k', v'⟩ := p
    by_cases h : k' = k
    · simp [mapSet, h, mapFindVal]
    · simp [mapSet, h, mapFindVal, ih]

theorem mapFindVal_mapSet_other (m : CondMap) (k k' : String) (v : Int)
    (h : k' ≠ k) : mapFindVal (mapSet m k v) k' = mapFindVal m k' := by
  induction m with
  | nil => simp [mapSet, mapFindVal, Ne.symm h]
  | cons p rest ih =>
    obtain ⟨k₀, v₀⟩ := p
    by_cases h₀ : k₀ = k
    · subst h₀
      simp [mapSet, mapFindVal, Ne.symm h]
    · simp [mapSet, h₀, mapFindVal, ih]

theorem mapFindVal_append_single (m : CondMap) (k k' : String) (v : Int)
    (h : k' ≠ k) : mapFindVal (m ++ [(k, v)]) k' = mapFindVal m k' := by
  induction m with
  | nil => simp [mapFindVal, Ne.symm h]
  | cons p rest ih =>
    obtain ⟨k₀, v₀⟩ := p
    by_cases h₀ : k₀ = k'
    · simp [mapFindVal, h₀]
    · simp [mapFindVal, h₀, ih]

theorem mapIndexRead_fst (m : CondMap) (k : String) :
    (mapIndexRead m k).1 = (mapFindVal m k).getD 0 := by
  unfold mapIndexRead
  cases h : mapFindVal m k <;> simp [h]

theorem mapIndexRead_snd_other (m : CondMap) (k k' : String) (h : k' ≠ k) :
    mapFindVal (mapIndexRead m k).2 k' = mapFindVal m k' := by
  unfold mapIndexRead
  cases hf : mapFindVal m k <;> simp [hf, mapFindVal_append_single m k k' 0 h]

/-! ### `Test` preserves the mapping -/

theorem testValue_map (name : String) (m : CondMap) (rng : List Nat) :
    (testValue name m rng).2.1 = m := by
  unfold testValue
  by_cases h : name = "random" <;> simp [h]

theorem testExpr_map (e : Expression) (m : CondMap) (rng : List Nat) :
    (testExpr e m rng).2.1 = m := by
  simp [testExpr, testValue_map]

theorem testExprList_map (es : List Expression) (isOr : Bool) (m : CondMap)
    (rng : List Nat) : (testExprList es isOr m rng).2.1 = m := by
  induction es generalizing m rng with
  | nil => simp [testExprList]
  | cons e rest ih =>
    simp only [testExprList]
    by_cases h : (testExpr e m rng).1 = isOr
    · simp [h, testExpr_map]
    · simp [h]
      rw [ih]
      exact testExpr_map e m rng

mutual

theorem ConditionSet.Test_map (s : ConditionSet) (m : CondMap)
    (rng : List Nat) : (s.Test m rng).2.1 = m := by
  obtain ⟨isOr, es, cs⟩ := s
  simp only [ConditionSet.Test]
  have h1 := testExprList_map es isOr m rng
  revert h1
  rcases testExprList es isOr m rng with ⟨r₁, m₁, rng₁⟩
  intro h1
  cases r₁ with
  | some r => simpa using h1
  | none =>
    dsimp only
    have h2 := testChildList_map cs isOr m₁ rng₁
    revert h2
    rcases testChildList cs isOr m₁ rng₁ with ⟨r₂, m₂, rng₂⟩
    intro h2
    cases r₂ <;> simp_all
termination_by sizeOf s

theorem testChildList_map (cs : List ConditionSet) (isOr : Bool)
    (m : CondMap) (rng : List Nat) :
    (testChildList cs isOr m rng).2.1 = m := by
  match cs with
  | [] => simp [testChildList]
  | c :: rest =>
    simp only [testChildList]
    have h1 := ConditionSet.Test_map c m rng
    revert h1
    rcases c.Test m rng with ⟨r, m₁, rng₁⟩
    intro h1
    by_cases h : r = isOr
    · simpa [h] using h1
    · simp only at h1
      simp [h, testChildList_map rest isOr m₁ rng₁,
        testChildList_map rest isOr m rng₁, h1]
termination_by sizeOf cs

end

/-! ### Claim C2: the operator table -/

/-- C2: for every recognized operator token the bound function applied to
`(a, b)` returns exactly the tabulated value — comparisons yield 1 or 0 per
the usual integer comparison, `=` yields `b`, `+=` yields `a + b`, `-=`
yields `a - b`, `<?=` yields `min a b`, `>?=` yields `max a b` — and any
unrecognized token yields the not-found signal `none`. -/
theorem op_table_semantics :
    (∀ a b : Int,
      opApp "==" a b = some (if a = b then 1 else 0)
      ∧ opApp "!=" a b = some (if a ≠ b then 1 else 0)
      ∧ opApp "<" a b = some (if a < b then 1 else 0)
      ∧ opApp ">" a b = some (if a > b then 1 else 0)
      ∧ opApp "<=" a b = some (if a ≤ b then 1 else 0)
      ∧ opApp ">=" a b = some (if a ≥ b then 1 else 0)
      ∧ opApp "=" a b = some b
      ∧ opApp "+=" a b = some (a + b)
      ∧ opApp "-=" a b = some (a - b)
      ∧ opApp "<?=" a b = some (min a b)
      ∧ opApp ">?=" a b = some (max a b))
    ∧ ∀ op : String,
        op ∉ (["==", "!=", "<", ">", "<=", ">=", "=",
          "+=", "-=", "<?=", ">?="] : List String) →
        Op op = none := by
  constructor
  · intro a b
    refine ⟨rfl, rfl, rfl, rfl, rfl, rfl, rfl, rfl, rfl, rfl, rfl⟩
  · intro op h
    simp only [List.mem_cons, List.not_mem_nil, or_false, not_or] at h
    obtain ⟨h1, h2, h3, h4, h5, h6, h7, h8, h9, h10, h11⟩ := h
    simp [Op, h1, h2, h3, h4, h5, h6, h7, h8, h9, h10, h11]

/-- Witness for C2 at concrete inputs: `<?=`(5,3) = 3, `>?=`(5,3) = 5, and
the token `"foo"` is not found. -/
theorem op_table_semantics_witness :
    opApp "<?=" 5 3 = some 3 ∧ opApp ">?=" 5 3 = some 5
      ∧ Op "foo" = none := by
  refine ⟨?_, ?_, op_table_semantics.2 "foo" (by decide)⟩
  · have h := (op_table_semantics.1 5 3).2.2.2.2.2.2.2.2.2.1
    simpa using h
  · have h := (op_table_semantics.1 5 3).2.2.2.2.2.2.2.2.2.2
    simpa using h

/-! ### Claim C4: `Test` does not mutate the mapping -/

/-- C4: `Test` never mutates the caller's mapping — the mapping threaded
through any `Test` run comes back identical — and during `Test` a name other
than `"random"` resolves to `mapping[name]`, defaulting to 0 when the key is
absent (without inserting it), while `"random"` resolves to a freshly drawn
integer in [0, 100), consuming one draw and touching the mapping not at
all. -/
theorem test_no_mutation_and_resolution :
    (∀ (s : ConditionSet) (m : CondMap) (rng : List Nat),
        (s.Test m rng).2.1 = m)
    ∧ (∀ (name : String) (m : CondMap) (rng : List Nat), name ≠ "random" →
        testValue name m rng = ((mapFindVal m name).getD 0, m, rng))
    ∧ (∀ (m : CondMap) (rng : List Nat),
        0 ≤ (testValue "random" m rng).1
        ∧ (testValue "random" m rng).1 < 100
        ∧ (testValue "random" m rng).2 = (m, rng.tail)) := by
  refine ⟨fun s m rng => ConditionSet.Test_map s m rng, ?_, ?_⟩
  · intro name m rng h
    simp [testValue, h]
  · intro m rng
    refine ⟨?_, ?_, ?_⟩
    · simp [testValue]
      omega
    · simp [testValue]
      omega
    · simp [testValue]

/-- Witness for C4: a concrete `Test` run hands the mapping back unchanged,
and the name `"x"` resolves by lookup. -/
theorem test_no_mutation_witness :
    (((⟨false, [⟨"x", "<", 3⟩], []⟩ : ConditionSet).Test
        [("x", 2)] [7]).2.1 = [("x", 2)])
    ∧ testValue "x" [("x", 2)] [7] = (2, [("x", 2)], [7]) := by
  refine ⟨test_no_mutation_and_resolution.1 _ _ _, ?_⟩
  have h := test_no_mutation_and_resolution.2.1 "x" [("x", 2)] [7] (by decide)
  rw [h]
  simp [mapFindVal]

/-! ### Claim C9: the `random` pseudo-condition -/

theorem testExpr_random_lt100 (m : CondMap) (rng : List Nat) :
    testExpr ⟨"random", "<", 100⟩ m rng = (true, m, rng.tail) := by
  simp [testExpr, testValue, Expression.fn, Op]
  omega

theorem testExpr_random_lt0 (m : CondMap) (rng : List Nat) :
    testExpr ⟨"random", "<", 0⟩ m rng = (false, m, rng.tail) := by
  simp [testExpr, testValue, Expression.fn, Op]
  omega

/-- C9: for every mapping and every random stream, `Test` of the single
expression `"random" < 100` returns true, and `Test` of the single
expression `"random" < 0` returns false. -/
theorem random_test_bounds :
    ∀ (m : CondMap) (rng : List Nat),
      ((⟨false, [⟨"random", "<", 100⟩], []⟩ : ConditionSet).Test m rng).1 = true
      ∧ ((⟨false, [⟨"random", "<", 0⟩], []⟩ : ConditionSet).Test m rng).1
          = false := by
  intro m rng
  constructor
  · simp [ConditionSet.Test, testExprList, testChildList,
      testExpr_random_lt100]
  · simp [ConditionSet.Test, testExprList, testChildList,
      testExpr_random_lt0]

/-! ### Claim C1: `Test` evaluation order and short-circuit rule -/

/-- C1: `Test` is characterized by: an empty node returns `!isOr` (true in
AND mode, false in OR mode) with nothing consumed; the first expression is
evaluated first, and when its boolean result equals `isOr` that result is
returned immediately — the remaining expressions and all children do not
influence the outcome or the consumed draws — otherwise the scan continues
on the rest with the threaded state; once the expressions are exhausted the
children are tested in declaration order under the identical
short-circuit rule. -/
theorem test_short_circuit_characterization :
    (∀ (isOr : Bool) (m : CondMap) (rng : List Nat),
        ConditionSet.Test ⟨isOr, [], []⟩ m rng = (!isOr, m, rng))
    ∧ (∀ (isOr : Bool) (e : Expression) (es : List Expression)
        (cs : List ConditionSet) (m : CondMap) (rng : List Nat),
        ((testExpr e m rng).1 = isOr →
          ConditionSet.Test ⟨isOr, e :: es, cs⟩ m rng = testExpr e m rng)
        ∧ ((testExpr e m rng).1 ≠ isOr →
          ConditionSet.Test ⟨isOr, e :: es, cs⟩ m rng
            = ConditionSet.Test ⟨isOr, es, cs⟩
                (testExpr e m rng).2.1 (testExpr e m rng).2.2))
    ∧ (∀ (isOr : Bool) (c : ConditionSet) (cs : List ConditionSet)
        (m : CondMap) (rng : List Nat),
        ((c.Test m rng).1 = isOr →
          ConditionSet.Test ⟨isOr, [], c :: cs⟩ m rng = c.Test m rng)
        ∧ ((c.Test m rng).1 ≠ isOr →
          ConditionSet.Test ⟨isOr, [], c :: cs⟩ m rng
            = ConditionSet.Test ⟨isOr, [], cs⟩
                (c.Test m rng).2.1 (c.Test m rng).2.2)) := by
  refine ⟨?_, ?_, ?_⟩
  · intro isOr m rng
    simp [ConditionSet.Test, testExprList, testChildList]
  · intro isOr e es cs m rng
    rcases hr : testExpr e m rng with ⟨b, m', rng'⟩
    constructor
    · intro h
      simp only [hr] at h ⊢
      simp only [ConditionSet.Test, testExprList, hr]
      simp [h]
    · intro h
      simp only [hr] at h ⊢
      simp only [ne_eq] at h
      simp only [ConditionSet.Test, testExprList, hr]
      simp [h]
  · intro isOr c cs m rng
    rcases hr : c.Test m rng with ⟨b, m', rng'⟩
    constructor
    · intro h
      simp only [hr] at h ⊢
      simp only [ConditionSet.Test, testExprList, testChildList, hr]
      simp [h]
    · intro h
      simp only [hr] at h ⊢
      simp only [ne_eq] at h
      simp only [ConditionSet.Test, testExprList, testChildList, hr]
      simp [h]

/-- Witness for C1: an empty AND node tests true; an AND node whose first
expression is the unsatisfied sentinel short-circuits to false without
touching its remaining expression or child; an OR node short-circuits to
true at its first (empty-AND, hence true) child without testing the
second. -/
theorem test_short_circuit_witness :
    ConditionSet.Test ⟨false, [], []⟩ [] [] = (true, [], [])
    ∧ ConditionSet.Test
        ⟨false, [⟨"", "!=", 0⟩, ⟨"x", "==", 0⟩], [⟨true, [], []⟩]⟩ [] []
        = (false, [], [])
    ∧ ConditionSet.Test ⟨true, [], [⟨false, [], []⟩, ⟨true, [], []⟩]⟩ [] []
        = (true, [], []) := by
  refine ⟨test_short_circuit_characterization.1 false [] [], ?_, ?_⟩
  · have h := (test_short_circuit_characterization.2.1 false ⟨"", "!=", 0⟩
      [⟨"x", "==", 0⟩] [⟨true, [], []⟩] [] []).1 (by decide)
    rw [h]
    decide
  · have h := (test_short_circuit_characterization.2.2 true ⟨false, [], []⟩
      [⟨true, [], []⟩] [] []).1 ?_
    · rw [h]
      exact test_short_circuit_characterization.1 false [] []
    · rw [test_short_circuit_characterization.1 false [] []]
      rfl

/-! ### Lemmas about `Apply`'s effect on the mapping -/

theorem mapFindVal_applyExpr_self (e : Expression) (m : CondMap) :
    mapFindVal (applyExpr e m) e.name
      = some (e.fn ((mapFindVal m e.name).getD 0) e.value) := by
  have h1 := mapIndexRead_fst m e.name
  simp only [applyExpr]
  rcases hr : mapIndexRead m e.name with ⟨c, m'⟩
  rw [hr] at h1
  simp only at h1
  rw [mapFindVal_mapSet_self, h1]

theorem mapFindVal_applyExpr_other (e : Expression) (m : CondMap)
    (k : String) (h : k ≠ e.name) :
    mapFindVal (applyExpr e m) k = mapFindVal m k := by
  have h2 := mapIndexRead_snd_other m e.name k h
  simp only [applyExpr]
  rcases hr : mapIndexRead m e.name with ⟨c, m'⟩
  rw [hr] at h2
  simp only at h2
  rw [mapFindVal_mapSet_other _ _ _ _ h, h2]

theorem mapContains_applyExpr (e : Expression) (m : CondMap) (k : String) :
    mapContains (applyExpr e m) k
      = (mapContains m k || decide (k = e.name)) := by
  by_cases h : k = e.name
  · subst h
    simp [mapContains, mapFindVal_applyExpr_self]
  · simp [mapContains, mapFindVal_applyExpr_other e m k h, h]

theorem mapFindVal_applyExprList_other (es : List Expression) (m : CondMap)
    (k : String) (h : k ∉ es.map Expression.name) :
    mapFindVal (applyExprList es m) k = mapFindVal m k := by
  induction es generalizing m with
  | nil => simp [applyExprList]
  | cons e rest ih =>
    simp only [List.map_cons, List.mem_cons, not_or] at h
    simp only [applyExprList]
    rw [ih _ h.2, mapFindVal_applyExpr_other e m k h.1]

theorem mapContains_applyExprList (es : List Expression) (m : CondMap)
    (k : String) :
    mapContains (applyExprList es m) k
      = (mapContains m k || decide (k ∈ es.map Expression.name)) := by
  induction es generalizing m with
  | nil => simp [applyExprList]
  | cons e rest ih =>
    simp only [applyExprList]
    rw [ih, mapContains_applyExpr]
    by_cases h : k = e.name <;> simp [h, Bool.or_assoc]

theorem childListNames_mem (cs : List ConditionSet) (k : String) :
    k ∈ childListNames cs ↔ ∃ c ∈ cs, k ∈ c.names := by
  induction cs with
  | nil => simp [childListNames]
  | cons c rest ih => simp [childListNames, ih]

theorem applyChildList_frame_of (cs : List ConditionSet) (m : CondMap)
    (k : String)
    (hp : ∀ c ∈ cs, ∀ m' : CondMap,
      mapFindVal (c.Apply m') k = mapFindVal m' k) :
    mapFindVal (applyChildList cs m) k = mapFindVal m k := by
  induction cs generalizing m with
  | nil => simp [applyChildList]
  | cons c rest ih =>
    simp only [applyChildList]
    rw [ih _ fun c' h' m' => hp c' (List.mem_cons_of_mem _ h') m',
      hp c (List.mem_cons_self _ _) m]

theorem applyChildList_contains_of (cs : List ConditionSet) (m : CondMap)
    (k : String)
    (hp : ∀ c ∈ cs, ∀ m' : CondMap,
      mapContains (c.Apply m') k = (mapContains m' k || decide (k ∈ c.names))) :
    mapContains (applyChildList cs m) k
      = (mapContains m k || decide (k ∈ childListNames cs)) := by
  induction cs generalizing m with
  | nil => simp [applyChildList, childListNames]
  | cons c rest ih =>
    simp only [applyChildList, childListNames]
    rw [ih _ fun c' h' m' => hp c' (List.mem_cons_of_mem _ h') m',
      hp c (List.mem_cons_self _ _) m]
    by_cases h1 : k ∈ c.names
      <;> by_cases h2 : k ∈ childListNames rest
      <;> simp [h1, h2, Bool.or_assoc]

theorem apply_frame_bounded (n : Nat) :
    ∀ s : ConditionSet, sizeOf s ≤ n → ∀ (m : CondMap) (k : String),
      k ∉ s.names → mapFindVal (s.Apply m) k = mapFindVal m k := by
  induction n with
  | zero =>
    intro s hs
    exfalso
    obtain ⟨isOr, es, cs⟩ := s
    simp [ConditionSet.mk.sizeOf_spec] at hs
  | succ n ih =>
    intro s hs m k h
    obtain ⟨isOr, es, cs⟩ := s
    simp only [ConditionSet.names, List.mem_append, not_or] at h
    simp only [ConditionSet.Apply]
    rw [applyChildList_frame_of cs _ k ?hp,
      mapFindVal_applyExprList_other es m k h.1]
    intro c hc m'
    refine ih c ?_ m' k ?_
    · have h1 : sizeOf c < sizeOf cs := List.sizeOf_lt_of_mem hc
      have h2 : sizeOf (ConditionSet.mk isOr es cs) ≤ n + 1 := hs
      simp [ConditionSet.mk.sizeOf_spec] at h2
      omega
    · intro hk
      exact h.2 ((childListNames_mem cs k).2 ⟨c, hc, hk⟩)

theorem apply_contains_bounded (n : Nat) :
    ∀ s : ConditionSet, sizeOf s ≤ n → ∀ (m : CondMap) (k : String),
      mapContains (s.Apply m) k
        = (mapContains m k || decide (k ∈ s.names)) := by
  induction n with
  | zero =>
    intro s hs
    exfalso
    obtain ⟨isOr, es, cs⟩ := s
    simp [ConditionSet.mk.sizeOf_spec] at hs
  | succ n ih =>
    intro s hs m k
    obtain ⟨isOr, es, cs⟩ := s
    simp only [ConditionSet.Apply, ConditionSet.names]
    rw [applyChildList_contains_of cs _ k ?hp, mapContains_applyExprList es m k]
    case hp =>
      intro c hc m'
      refine ih c ?_ m' k
      have h1 : sizeOf c < sizeOf cs := List.sizeOf_lt_of_mem hc
      have h2 : sizeOf (ConditionSet.mk isOr es cs) ≤ n + 1 := hs
      simp [ConditionSet.mk.sizeOf_spec] at h2
      omega
    by_cases h1 : k ∈ es.map Expression.name
      <;> by_cases h2 : k ∈ childListNames cs
      <;> simp [h1, h2, Bool.or_assoc]

theorem ConditionSet.Apply_frame (s : ConditionSet) (m : CondMap)
    (k : String) (h : k ∉ s.names) :
    mapFindVal (s.Apply m) k = mapFindVal m k :=
  apply_frame_bounded (sizeOf s) s le_rfl m k h

theorem ConditionSet.Apply_contains (s : ConditionSet) (m : CondMap)
    (k : String) :
    mapContains (s.Apply m) k = (mapContains m k || decide (k ∈ s.names)) :=
  apply_contains_bounded (sizeOf s) s le_rfl m k

/-! ### Defining equations of the recursive parse/apply functions, in
rewrite-friendly form -/

theorem addList_nil (s : ConditionSet) : addList s [] = s := by
  rw [addList.eq_def]

theorem addList_cons (s : ConditionSet) (n : DataNode)
    (rest : List DataNode) :
    addList s (n :: rest) = addList (s.Add n) rest := by
  rw [addList.eq_def]

theorem load_mk (tokens : List String) (nums : List (Option Int))
    (children : List DataNode) :
    ConditionSet.Load ⟨tokens, nums, children⟩
      = addList ⟨tokens.getD 0 "" == "or", [], []⟩ children := by
  rw [ConditionSet.Load.eq_def]

theorem add_bin (s : ConditionSet) (nm op t2 : String) (v : Int)
    (nums2 : List (Option Int)) (ch : List DataNode)
    (h : (Op op).isSome = true) :
    s.Add ⟨[nm, op, t2], none :: none :: some v :: nums2, ch⟩
      = { s with expressions := s.expressions ++ [⟨nm, op, v⟩] } := by
  rw [ConditionSet.Add.eq_def]
  obtain ⟨f, hf⟩ := Option.isSome_iff_exists.1 h
  simp [DataNode.Size, DataNode.Token, DataNode.Value, addBinary, hf]

theorem add_two (s : ConditionSet) (x y : String) (e : Expression)
    (nums2 : List (Option Int)) (ch : List DataNode)
    (h : addUnary x y = some e) :
    s.Add ⟨[x, y], nums2, ch⟩
      = { s with expressions := s.expressions ++ [e] } := by
  rw [ConditionSet.Add.eq_def]
  simp [DataNode.Size, DataNode.Token, h]

theorem add_never (s : ConditionSet) (nums : List (Option Int))
    (ch : List DataNode) :
    s.Add ⟨["never"], nums, ch⟩
      = { s with expressions := s.expressions ++ [⟨"", "!=", 0⟩] } := by
  rw [ConditionSet.Add.eq_def]
  simp [DataNode.Size, DataNode.Token]

theorem add_group (s : ConditionSet) (t : String) (nums : List (Option Int))
    (ch : List DataNode) (h : t = "and" ∨ t = "or") :
    s.Add ⟨[t], nums, ch⟩
      = { s with children :=
            s.children ++ [ConditionSet.Load ⟨[t], nums, ch⟩] } := by
  rw [ConditionSet.Add.eq_def]
  rcases h with h | h <;> subst h <;> simp [DataNode.Size, DataNode.Token]

theorem add2_fail (s : ConditionSet) (n : DataNode) (h2 : n.Size = 2)
    (h : addUnary (n.Token 0) (n.Token 1) = none) : s.Add n = s := by
  rw [ConditionSet.Add.eq_def]
  simp [h2, h]

theorem add3_fail (s : ConditionSet) (n : DataNode) (h3 : n.Size = 3)
    (h : addBinary (n.Token 0) (n.Token 1) (n.Value 2) = none) :
    s.Add n = s := by
  rw [ConditionSet.Add.eq_def]
  simp [h3, h]

theorem add1_fail (s : ConditionSet) (n : DataNode) (h1 : n.Size = 1)
    (hnever : n.Token 0 ≠ "never") (hand : n.Token 0 ≠ "and")
    (hor : n.Token 0 ≠ "or") : s.Add n = s := by
  rw [ConditionSet.Add.eq_def]
  simp [h1, hnever, hand, hor]

theorem addn_fail (s : ConditionSet) (n : DataNode) (h1 : n.Size ≠ 1)
    (h2 : n.Size ≠ 2) (h3 : n.Size ≠ 3) : s.Add n = s := by
  rw [ConditionSet.Add.eq_def]
  simp [h1, h2, h3]

theorem apply_mk (isOr : Bool) (es : List Expression)
    (cs : List ConditionSet) (m : CondMap) :
    ConditionSet.Apply ⟨isOr, es, cs⟩ m
      = applyChildList cs (applyExprList es m) := by
  rw [ConditionSet.Apply.eq_def]

theorem applyChildList_nil (m : CondMap) : applyChildList [] m = m := by
  rw [applyChildList.eq_def]

theorem applyChildList_cons (c : ConditionSet) (rest : List ConditionSet)
    (m : CondMap) :
    applyChildList (c :: rest) m = applyChildList rest (c.Apply m) := by
  rw [applyChildList.eq_def]

/-! ### Claim C3: `Apply` semantics -/

/-- C3 counterexample: the spec's own example is off by the `set` line —
starting from the empty mapping, applying the tree parsed from
`set "gold"` followed by `"gold" "+=" 5` leaves `mapping["gold"] = 6`
(`set` makes it 1, then 5 is added), not 5 as claimed. -/
theorem apply_gold_counterexample :
    mapFindVal ((ConditionSet.Load goldNode).Apply []) "gold" ≠ some 5
    ∧ mapFindVal ((ConditionSet.Load goldNode).Apply []) "gold" = some 6 := by
  have hload : ConditionSet.Load goldNode
      = ⟨false, [⟨"gold", "=", 1⟩, ⟨"gold", "+=", 5⟩], []⟩ := by
    simp only [goldNode, load_mk, addList_cons, addList_nil]
    rw [add_two _ _ _ ⟨"gold", "=", 1⟩ _ _ (by simp [addUnary])]
    rw [add_bin _ _ _ _ _ _ _ (by simp [Op])]
    simp
  rw [hload]
  rw [apply_mk]
  simp [applyChildList_nil, applyExprList, applyExpr, mapIndexRead,
    mapSet, mapFindVal, Expression.fn, Op]

/-- C3 (amended): `Apply` folds the expressions over the mapping in
declaration order — each step reads the current value through the
key-materialising `operator[]` (default 0), applies the bound function to
`(current, operand)` and writes the result back — and then recurses into
every child unconditionally, whatever any `isOr` flag says; on the spec's
concrete example the final value of `"gold"` is 6 (not 5: `set` first sets
it to 1, then `+= 5`). -/
theorem apply_semantics :
    (∀ (isOr : Bool) (e : Expression) (es : List Expression)
        (cs : List ConditionSet) (m : CondMap),
        ConditionSet.Apply ⟨isOr, e :: es, cs⟩ m
          = ConditionSet.Apply ⟨isOr, es, cs⟩ (applyExpr e m))
    ∧ (∀ (isOr : Bool) (c : ConditionSet) (cs : List ConditionSet)
        (m : CondMap),
        ConditionSet.Apply ⟨isOr, [], c :: cs⟩ m
          = ConditionSet.Apply ⟨isOr, [], cs⟩ (c.Apply m))
    ∧ (∀ (isOr : Bool) (m : CondMap), ConditionSet.Apply ⟨isOr, [], []⟩ m = m)
    ∧ (∀ (e : Expression) (m : CondMap),
        mapFindVal (applyExpr e m) e.name
          = some (e.fn ((mapFindVal m e.name).getD 0) e.value))
    ∧ mapFindVal ((ConditionSet.Load goldNode).Apply []) "gold" = some 6 := by
  refine ⟨?_, ?_, ?_, ?_, ?_⟩
  · intro isOr e es cs m
    rw [apply_mk, apply_mk]
    simp [applyExprList]
  · intro isOr c cs m
    rw [apply_mk, apply_mk, applyChildList_cons]
    simp [applyExprList]
  · intro isOr m
    rw [apply_mk, applyChildList_nil]
    simp [applyExprList]
  · exact fun e m => mapFindVal_applyExpr_self e m
  · have hload : ConditionSet.Load goldNode
        = ⟨false, [⟨"gold", "=", 1⟩, ⟨"gold", "+=", 5⟩], []⟩ := by
      simp only [goldNode, load_mk, addList_cons, addList_nil]
      rw [add_two _ _ _ ⟨"gold", "=", 1⟩ _ _ (by simp [addUnary])]
      rw [add_bin _ _ _ _ _ _ _ (by simp [Op])]
      simp
    rw [hload, apply_mk]
    simp [applyChildList_nil, applyExprList, applyExpr, mapIndexRead,
      mapSet, mapFindVal, Expression.fn, Op]

/-! ### Claim C5: the `never` sentinel -/

theorem testExpr_never (m : CondMap) (rng : List Nat)
    (h0 : (mapFindVal m "").getD 0 = 0) :
    testExpr ⟨"", "!=", 0⟩ m rng = (false, m, rng) := by
  simp [testExpr, testValue, Expression.fn, Op, h0]

theorem testExprList_never (es : List Expression) (m : CondMap)
    (rng : List Nat) (h0 : (mapFindVal m "").getD 0 = 0)
    (hmem : (⟨"", "!=", 0⟩ : Expression) ∈ es) :
    (testExprList es false m rng).1 = some false := by
  induction es generalizing rng with
  | nil => cases hmem
  | cons e rest ih =>
    simp only [testExprList]
    have hm := testExpr_map e m rng
    rcases he : testExpr e m rng with ⟨b, m1, rng1⟩
    rw [he] at hm
    simp only at hm
    subst hm
    cases b with
    | false => simp
    | true =>
      simp only [Bool.true_eq_false, if_false]
      rcases List.mem_cons.1 hmem with he' | hmem'
      · subst he'
        rw [testExpr_never m1 rng h0] at he
        simp at he
      · exact ih rng1 hmem'

theorem test_never_false (s : ConditionSet) (m : CondMap) (rng : List Nat)
    (hOr : s.isOr = false)
    (hmem : (⟨"", "!=", 0⟩ : Expression) ∈ s.expressions)
    (h0 : (mapFindVal m "").getD 0 = 0) :
    (s.Test m rng).1 = false := by
  obtain ⟨isOr, es, cs⟩ := s
  simp only at hOr hmem
  subst hOr
  have h := testExprList_never es m rng h0 hmem
  simp only [ConditionSet.Test]
  rcases ht : testExprList es false m rng with ⟨r, m1, rng1⟩
  rw [ht] at h
  simp only at h
  subst h
  simp

/-- C5 counterexample: the claim quantifies over every mapping, but the
`never` expression resolves its empty name through the mapping like any
other name — on the mapping that binds `""` to 1 the sentinel is satisfied,
and the AND-mode tree built from the lone `never` line tests true, not
false. -/
theorem never_counterexample :
    (((ConditionSet.mk false [] []).Add ⟨["never"], [], []⟩).Test
        [("", 1)] []).1 = true := by
  rw [add_never]
  simp [ConditionSet.Test, testExprList, testChildList, testExpr,
    testValue, Expression.fn, Op, mapFindVal]

/-- C5 (amended): a one-token `never` line appends the Expression
`("", "!=", 0)`; for every mapping that does not bind the empty name to a
nonzero value (the sentinel's name is looked up like any other, so this
proviso is needed), the expression evaluates false, and an AND-mode tree
containing it therefore tests false. -/
theorem never_sentinel :
    (∀ (s : ConditionSet) (nums : List (Option Int))
        (children : List DataNode),
        s.Add ⟨["never"], nums, children⟩
          = { s with expressions := s.expressions ++ [⟨"", "!=", 0⟩] })
    ∧ (∀ (s : ConditionSet) (m : CondMap) (rng : List Nat),
        s.isOr = false →
        (⟨"", "!=", 0⟩ : Expression) ∈ s.expressions →
        (mapFindVal m "").getD 0 = 0 →
        (s.Test m rng).1 = false) :=
  ⟨fun s nums children => add_never s nums children,
   fun s m rng hOr hmem h0 => test_never_false s m rng hOr hmem h0⟩

/-- Witness for C5 (amended): the singleton never-tree tests false on the
empty mapping. -/
theorem never_sentinel_witness :
    ((( ⟨false, [⟨"", "!=", 0⟩], []⟩ : ConditionSet)).Test [] []).1
      = false := by
  refine never_sentinel.2 ⟨false, [⟨"", "!=", 0⟩], []⟩ [] [] rfl ?_ ?_
  · simp
  · simp [mapFindVal]

/-! ### Claim C6: shorthand desugaring and precedence -/

/-- C6: each unary shorthand produces exactly the canonical binary
Expression — `not x ≡ x == 0`, `has x ≡ x != 0`, `set x ≡ x = 1`,
`clear x ≡ x = 0`, and, whenever the first token is not one of the four
keywords (they take precedence), `x ++ ≡ x += 1` and `x -- ≡ x -= 1`;
in particular the line `("set", "++")` desugars through the `set` rule to
`("++", "=", 1)` and not through the suffix rule. -/
theorem shorthand_desugaring :
    (∀ x : String,
      addUnary "not" x = addBinary x "==" (some 0)
      ∧ addUnary "has" x = addBinary x "!=" (some 0)
      ∧ addUnary "set" x = addBinary x "=" (some 1)
      ∧ addUnary "clear" x = addBinary x "=" (some 0)
      ∧ (x ∉ (["not", "has", "set", "clear"] : List String) →
          addUnary x "++" = addBinary x "+=" (some 1)
          ∧ addUnary x "--" = addBinary x "-=" (some 1)))
    ∧ addUnary "set" "++" = some ⟨"++", "=", 1⟩
    ∧ addUnary "set" "++" ≠ some ⟨"set", "+=", 1⟩ := by
  refine ⟨?_, rfl, by decide⟩
  intro x
  refine ⟨rfl, rfl, rfl, rfl, ?_⟩
  intro h
  simp only [List.mem_cons, List.not_mem_nil, or_false, not_or] at h
  obtain ⟨h1, h2, h3, h4⟩ := h
  constructor <;> simp [addUnary, addBinary, Op, h1, h2, h3, h4]

/-- Witness for C6: for the non-keyword name `"gold"` the suffix shorthands
agree with their canonical binary forms. -/
theorem shorthand_desugaring_witness :
    addUnary "gold" "++" = addBinary "gold" "+=" (some 1)
    ∧ addUnary "gold" "--" = addBinary "gold" "-=" (some 1) :=
  (shorthand_desugaring.1 "gold").2.2.2.2 (by decide)

/-! ### Claim C8: parse failures are non-fatal and localized -/

/-- C8: a line matching no rule — a two-token line no unary rule accepts, a
three-token line whose operator or value is rejected, a one-token line that
is none of `never`/`and`/`or`, or a line with any other token count — leaves
the set completely unchanged, and construction continues with the remaining
sibling lines: the block with one malformed line between two valid lines
parses to exactly the two valid Expressions. -/
theorem parse_failure_localized :
    (∀ (s : ConditionSet) (n : DataNode), n.Size = 2 →
        addUnary (n.Token 0) (n.Token 1) = none → s.Add n = s)
    ∧ (∀ (s : ConditionSet) (n : DataNode), n.Size = 3 →
        addBinary (n.Token 0) (n.Token 1) (n.Value 2) = none → s.Add n = s)
    ∧ (∀ (s : ConditionSet) (n : DataNode), n.Size = 1 →
        n.Token 0 ≠ "never" → n.Token 0 ≠ "and" → n.Token 0 ≠ "or" →
        s.Add n = s)
    ∧ (∀ (s : ConditionSet) (n : DataNode),
        n.Size ≠ 1 → n.Size ≠ 2 → n.Size ≠ 3 → s.Add n = s)
    ∧ ConditionSet.Load malNode
        = ⟨false, [⟨"a", "==", 1⟩, ⟨"b", "<", 2⟩], []⟩ := by
  refine ⟨fun s n h2 h => add2_fail s n h2 h,
    fun s n h3 h => add3_fail s n h3 h,
    fun s n h1 ha hb hc => add1_fail s n h1 ha hb hc,
    fun s n h1 h2 h3 => addn_fail s n h1 h2 h3, ?_⟩
  simp only [malNode, load_mk, addList_cons, addList_nil]
  rw [add_bin _ _ _ _ _ _ _ (by simp [Op])]
  rw [add3_fail _ _ (by decide) (by decide)]
  rw [add_bin _ _ _ _ _ _ _ (by simp [Op])]
  simp

/-- Witness for C8: adding the malformed middle line of `malNode` to a
nonempty set leaves it untouched. -/
theorem parse_failure_localized_witness :
    (⟨false, [⟨"a", "==", 1⟩], []⟩ : ConditionSet).Add
        ⟨["bogus", "@@", "x"], [none, none, none], []⟩
      = ⟨false, [⟨"a", "==", 1⟩], []⟩ := by
  refine parse_failure_localized.2.1 _ _ ?_ ?_
  · decide
  · decide

/-! ### Claim C10: `Apply` touches exactly the named keys -/

/-- C10: `Apply` only touches keys the tree names — for every key named by
no expression anywhere in the tree its value is unchanged — and it never
removes a key: afterwards a key is present exactly when it was present
before or is one of the tree's expression names, so the inserted keys are
exactly the tree's names that were absent beforehand. -/
theorem apply_frame_effect :
    (∀ (s : ConditionSet) (m : CondMap) (k : String),
        k ∉ s.names → mapFindVal (s.Apply m) k = mapFindVal m k)
    ∧ (∀ (s : ConditionSet) (m : CondMap) (k : String),
        mapContains (s.Apply m) k
          = (mapContains m k || decide (k ∈ s.names))) :=
  ⟨fun s m k h => ConditionSet.Apply_frame s m k h,
   fun s m k => ConditionSet.Apply_contains s m k⟩

/-- Witness for C10: applying a tree that only names `"a"` leaves the value
of `"b"` intact. -/
theorem apply_frame_effect_witness :
    mapFindVal ((⟨false, [⟨"a", "=", 1⟩], []⟩ : ConditionSet).Apply
        [("b", 7)]) "b" = some 7 := by
  have h := apply_frame_effect.1 ⟨false, [⟨"a", "=", 1⟩], []⟩ [("b", 7)] "b"
    (by simp [ConditionSet.names, childListNames])
  rw [h]
  decide

/-! ### Claim C7: `Save` then `Load` round-trips -/

theorem save_mk (isOr : Bool) (es : List Expression)
    (cs : List ConditionSet) :
    ConditionSet.Save ⟨isOr, es, cs⟩
      = es.map (fun e => WriteItem.record3 e.name e.op e.value)
        ++ saveChildList cs := by
  rw [ConditionSet.Save.eq_def]

theorem saveChildList_nil : saveChildList [] = [] := by
  rw [saveChildList.eq_def]

theorem saveChildList_cons (c : ConditionSet) (rest : List ConditionSet) :
    saveChildList (c :: rest)
      = WriteItem.record1 (if c.isOr then "or" else "and")
        :: WriteItem.beginChild
        :: (c.Save ++ WriteItem.endChild :: saveChildList rest) := by
  rw [saveChildList.eq_def]

theorem nodesOfSet_mk (isOr : Bool) (es : List Expression)
    (cs : List ConditionSet) :
    nodesOfSet ⟨isOr, es, cs⟩ = es.map nodeOfExpr ++ childNodeList cs := by
  rw [nodesOfSet.eq_def]

theorem childNodeList_nil : childNodeList [] = [] := by
  rw [childNodeList.eq_def]

theorem childNodeList_cons (c : ConditionSet) (rest : List ConditionSet) :
    childNodeList (c :: rest)
      = ⟨[if c.isOr then "or" else "and"], [none], nodesOfSet c⟩
        :: childNodeList rest := by
  rw [childNodeList.eq_def]

theorem validOps_mk (isOr : Bool) (es : List Expression)
    (cs : List ConditionSet) :
    ConditionSet.ValidOps ⟨isOr, es, cs⟩
      = (es.all (fun e => (Op e.op).isSome) && childListValidOps cs) := by
  rw [ConditionSet.ValidOps.eq_def]

theorem childListValidOps_nil : childListValidOps [] = true := by
  rw [childListValidOps.eq_def]

theorem childListValidOps_cons (c : ConditionSet)
    (rest : List ConditionSet) :
    childListValidOps (c :: rest) = (c.ValidOps && childListValidOps rest) := by
  rw [childListValidOps.eq_def]

theorem childListValidOps_mem (cs : List ConditionSet) (c : ConditionSet)
    (hc : c ∈ cs) (h : childListValidOps cs = true) : c.ValidOps = true := by
  induction cs with
  | nil => cases hc
  | cons d tl ih =>
    rw [childListValidOps_cons, Bool.and_eq_true] at h
    rcases List.mem_cons.1 hc with he | hm
    · subst he
      exact h.1
    · exact ih hm h.2

theorem readGo_record3_list (es : List Expression) (rest : List WriteItem)
    (acc : List DataNode) (stack : List (List DataNode)) :
    readGo (es.map (fun e => WriteItem.record3 e.name e.op e.value) ++ rest)
        acc stack
      = readGo rest ((es.map nodeOfExpr).reverse ++ acc) stack := by
  induction es generalizing acc with
  | nil => simp
  | cons e tl ih =>
    simp only [List.map_cons, List.cons_append, readGo, List.append_eq]
    rw [ih]
    simp [nodeOfExpr]

mutual

theorem readGo_save (s : ConditionSet) (rest : List WriteItem)
    (acc : List DataNode) (stack : List (List DataNode)) :
    readGo (s.Save ++ rest) acc stack
      = readGo rest ((nodesOfSet s).reverse ++ acc) stack := by
  obtain ⟨isOr, es, cs⟩ := s
  rw [save_mk, nodesOfSet_mk, List.append_assoc, readGo_record3_list,
    readGo_saveChildList cs rest _ stack]
  simp [List.reverse_append, List.append_assoc]
termination_by sizeOf s

theorem readGo_saveChildList (cs : List ConditionSet)
    (rest : List WriteItem) (acc : List DataNode)
    (stack : List (List DataNode)) :
    readGo (saveChildList cs ++ rest) acc stack
      = readGo rest ((childNodeList cs).reverse ++ acc) stack := by
  match cs with
  | [] => rw [saveChildList_nil, childNodeList_nil]; simp
  | c :: tl =>
    rw [saveChildList_cons, childNodeList_cons]
    simp only [List.cons_append, List.append_assoc, readGo, List.append_eq]
    rw [readGo_save c (WriteItem.endChild :: (saveChildList tl ++ rest)) []
      (((⟨[if c.isOr then "or" else "and"], [none], []⟩ : DataNode) :: acc)
        :: stack)]
    simp only [readGo, List.append_nil, List.reverse_reverse]
    rw [readGo_saveChildList tl rest _ stack]
    simp [List.reverse_cons, List.append_assoc]
termination_by sizeOf cs

end

theorem readItems_save (s : ConditionSet) : readItems s.Save = nodesOfSet s := by
  have h := readGo_save s [] [] []
  rw [List.append_nil] at h
  simp only [readItems, h, readGo]
  simp

theorem addList_exprNodes (es : List Expression) (rest : List DataNode)
    (h : ∀ e ∈ es, (Op e.op).isSome = true) :
    ∀ (isOr : Bool) (es0 : List Expression) (cs0 : List ConditionSet),
      addList ⟨isOr, es0, cs0⟩ (es.map nodeOfExpr ++ rest)
        = addList ⟨isOr, es0 ++ es, cs0⟩ rest := by
  induction es with
  | nil => simp
  | cons e tl ih =>
    intro isOr es0 cs0
    have hop := h e (List.mem_cons_self _ _)
    obtain ⟨nm, op, v⟩ := e
    simp only [List.map_cons, List.cons_append, addList_cons, nodeOfExpr]
    rw [add_bin _ _ _ _ _ _ _ hop]
    dsimp only
    have hstep := ih (fun e' he' => h e' (List.mem_cons_of_mem _ he')) isOr
      (es0 ++ [⟨nm, op, v⟩]) cs0
    rw [hstep]
    simp

theorem addList_childNodes_of (cs : List ConditionSet) (rest : List DataNode)
    (hp : ∀ c ∈ cs, ∀ (isOr : Bool) (es0 : List Expression)
        (cs0 : List ConditionSet),
        addList ⟨isOr, es0, cs0⟩ (nodesOfSet c)
          = ⟨isOr, es0 ++ c.expressions, cs0 ++ c.children⟩) :
    ∀ (isOr : Bool) (es0 : List Expression) (cs0 : List ConditionSet),
      addList ⟨isOr, es0, cs0⟩ (childNodeList cs ++ rest)
        = addList ⟨isOr, es0, cs0 ++ cs⟩ rest := by
  induction cs with
  | nil => simp [childNodeList_nil]
  | cons c tl ih =>
    intro isOr es0 cs0
    rw [childNodeList_cons]
    simp only [List.cons_append, addList_cons]
    rw [add_group _ _ _ _ (by cases c.isOr <;> simp)]
    rw [load_mk]
    have htok : ((([if c.isOr then "or" else "and"] : List String).getD 0 "")
        == "or") = c.isOr := by cases c.isOr <;> rfl
    rw [htok]
    rw [hp c (List.mem_cons_self _ _) c.isOr [] []]
    have hc : (⟨c.isOr, [] ++ c.expressions, [] ++ c.children⟩ : ConditionSet)
        = c := by
      obtain ⟨a, b, d⟩ := c
      simp
    rw [hc]
    rw [ih (fun c' h' => hp c' (List.mem_cons_of_mem _ h')) isOr es0
      (cs0 ++ [c])]
    simp

theorem load_nodes_bounded (n : Nat) :
    ∀ s : ConditionSet, sizeOf s ≤ n → s.ValidOps = true →
      ∀ (isOr : Bool) (es0 : List Expression) (cs0 : List ConditionSet),
        addList ⟨isOr, es0, cs0⟩ (nodesOfSet s)
          = ⟨isOr, es0 ++ s.expressions, cs0 ++ s.children⟩ := by
  induction n with
  | zero =>
    intro s hs
    exfalso
    obtain ⟨isOr, es, cs⟩ := s
    simp [ConditionSet.mk.sizeOf_spec] at hs
  | succ n ih =>
    intro s hs hv isOr es0 cs0
    obtain ⟨isOr1, es, cs⟩ := s
    rw [validOps_mk, Bool.and_eq_true, List.all_eq_true] at hv
    rw [nodesOfSet_mk]
    have hrw : es.map nodeOfExpr ++ childNodeList cs
        = es.map nodeOfExpr ++ (childNodeList cs ++ []) := by simp
    rw [hrw, addList_exprNodes es _ (fun e he => hv.1 e he) isOr es0 cs0,
      addList_childNodes_of cs [] ?hp isOr (es0 ++ es) cs0, addList_nil]
    case hp =>
      intro c hc isOr2 es2 cs2
      refine ih c ?_ (childListValidOps_mem cs c hc hv.2) isOr2 es2 cs2
      have h1 : sizeOf c < sizeOf cs := List.sizeOf_lt_of_mem hc
      have h2 : sizeOf (ConditionSet.mk isOr1 es cs) ≤ n + 1 := hs
      simp [ConditionSet.mk.sizeOf_spec] at h2
      omega

theorem reload_eq (s : ConditionSet) (hv : s.ValidOps = true) :
    reload s = s := by
  obtain ⟨isOr, es, cs⟩ := s
  simp only [reload]
  rw [readItems_save, load_mk]
  have htok : ((([if (ConditionSet.mk isOr es cs).isOr then "or" else "and"]
      : List String).getD 0 "") == "or") = isOr := by
    cases isOr <;> rfl
  rw [htok]
  rw [load_nodes_bounded (sizeOf (ConditionSet.mk isOr es cs)) _ le_rfl hv
    isOr [] []]
  simp

/-- C7: `Save` writes one `(name, op, operand)` record per expression in
declaration order, then for each child an `"and"`/`"or"` record per the
child's combinator followed by a scoped block of the child's recursive save;
for every tree whose expressions all carry recognized operators (true of any
tree built from canonical binary lines and and/or groups), re-reading the
saved output and `Load`ing it under a line restating the root combinator
reproduces the tree exactly, so `Test` and `Apply` behave identically on
every mapping and random stream. -/
theorem save_load_roundtrip :
    (∀ s : ConditionSet, s.ValidOps = true →
      reload s = s
      ∧ (∀ (m : CondMap) (rng : List Nat), (reload s).Test m rng = s.Test m rng)
      ∧ (∀ m : CondMap, (reload s).Apply m = s.Apply m))
    ∧ (∀ (isOr : Bool) (es : List Expression) (cs : List ConditionSet),
        ConditionSet.Save ⟨isOr, es, cs⟩
          = es.map (fun e => WriteItem.record3 e.name e.op e.value)
            ++ saveChildList cs)
    ∧ (∀ (c : ConditionSet) (cs : List ConditionSet),
        saveChildList (c :: cs)
          = WriteItem.record1 (if c.isOr then "or" else "and")
            :: WriteItem.beginChild
            :: (c.Save ++ WriteItem.endChild :: saveChildList cs)) := by
  refine ⟨?_, fun isOr es cs => save_mk isOr es cs,
    fun c cs => saveChildList_cons c cs⟩
  intro s hv
  have h := reload_eq s hv
  exact ⟨h, fun m rng => by rw [h], fun m => by rw [h]⟩

/-- Witness for C7: a concrete two-level tree (an AND root with one
expression and one OR child) has recognized operators throughout and
survives the `Save`/re-read/`Load` round trip unchanged. -/
theorem save_load_roundtrip_witness :
    ConditionSet.ValidOps
        ⟨false, [⟨"a", "==", 3⟩], [⟨true, [⟨"b", "<", 5⟩], []⟩]⟩ = true
    ∧ reload ⟨false, [⟨"a", "==", 3⟩], [⟨true, [⟨"b", "<", 5⟩], []⟩]⟩
        = ⟨false, [⟨"a", "==", 3⟩], [⟨true, [⟨"b", "<", 5⟩], []⟩]⟩ := by
  have hv : ConditionSet.ValidOps
      ⟨false, [⟨"a", "==", 3⟩], [⟨true, [⟨"b", "<", 5⟩], []⟩]⟩ = true := by
    rw [validOps_mk, childListValidOps_cons, validOps_mk, childListValidOps_nil]
    simp [Op]
  exact ⟨hv, (save_load_roundtrip.1 _ hv).1⟩

end ConditionSetModel
